import Mathlib

/-
Verification of the gorm-snowflake dialect adapter.

Shallow embedding of the INSERT/UPSERT SQL-generation engine:
identifier quoter (snowflake.go QuoteTo), insert-strategy selector
(shouldUseUnionSelect), plain/union insert builders, the MERGE
"WHEN NOT MATCHED" clause, the ON CONFLICT assignment rewriter
(prepareOnConflictForMerge), and the default-value recovery loop
from Create.  Strings are modelled as `List Char` (Go strings of
ASCII identifiers); the Go writer (`db.Statement`) is modelled as an
explicit accumulator of SQL text and bound parameters.
-/

namespace GormSnowflake

/-- Characters accepted by the function-name character class of the
package-level pattern `([a-zA-Z0-9|_]+)\((.+?)\)` in snowflake.go. -/
def isWordChar (c : Char) : Bool :=
  (('a' ≤ c) && (c ≤ 'z')) || (('A' ≤ c) && (c ≤ 'Z')) ||
    (('0' ≤ c) && (c ≤ '9')) || c = '|' || c = '_'

/-- Maximal run of word characters at the head of the input, with the rest.
Models the greedy `[a-zA-Z0-9|_]+` part of the function-call pattern
(greedy with backtracking: only the maximal run can be followed by `(`,
since `(` is not a word character). -/
def takeRun : List Char → List Char × List Char
  | [] => ([], [])
  | c :: cs =>
    if isWordChar c then
      let r := takeRun cs
      (c :: r.1, r.2)
    else ([], c :: cs)

/-- Split the input at the first `)`; `none` when there is none.
Models the terminating `\)` of the pattern. -/
def splitAtRParen : List Char → Option (List Char × List Char)
  | [] => none
  | c :: cs =>
    if c = ')' then some ([], cs)
    else
      match splitAtRParen cs with
      | none => none
      | some (a, r) => some (c :: a, r)

/-- Argument part of the pattern, `(.+?)`: at least one character followed
by the earliest possible `)` (non-greedy `.+?`). -/
def takeArgs : List Char → Option (List Char × List Char)
  | [] => none
  | c :: cs =>
    match splitAtRParen cs with
    | none => none
    | some (a, r) => some (c :: a, r)

/-- One attempt of the function-call pattern at the head of the input:
a nonempty word run, then `(`, then the argument part. -/
def tryMatchAt (l : List Char) : Option (List Char × List Char) :=
  let nr := takeRun l
  if nr.1 = [] then none
  else
    match nr.2 with
    | '(' :: rest =>
      match takeArgs rest with
      | none => none
      | some (a, _) => some (nr.1, a)
    | _ => none

/-- Leftmost match of `([a-zA-Z0-9|_]+)\((.+?)\)` in the input, as the
pair (submatch 1, submatch 2); Go's `FindStringSubmatch` returns the
leftmost occurrence, modelled by trying each start position in order. -/
def findFuncMatch : List Char → Option (List Char × List Char)
  | [] => none
  | c :: cs =>
    match tryMatchAt (c :: cs) with
    | some m => some m
    | none => findFuncMatch cs

/-- Go `strings.Split(s, ".")` for the one-character separator used by
QuoteTo. -/
def splitOnDot : List Char → List (List Char)
  | [] => [[]]
  | c :: cs =>
    if c = '.' then [] :: splitOnDot cs
    else
      match splitOnDot cs with
      | [] => [[c]]
      | p :: ps => (c :: p) :: ps

/-- Text written by QuoteTo's segment loop for the segments after the
first: `."` then the segment then `"`. -/
def writeSegsRest : List (List Char) → List Char
  | [] => []
  | p :: ps => '.' :: '"' :: (p ++ '"' :: writeSegsRest ps)

/-- Text written by QuoteTo's segment loop (the loop body after the
initial `"` has already been written): the first segment then `"`,
then the remaining segments each preceded by `."`. -/
def writeSegs : List (List Char) → List Char
  | [] => []
  | p :: ps => p ++ '"' :: writeSegsRest ps

/-- Quoting body of QuoteTo with QuoteFields enabled (snowflake.go
lines 152-165): write `"`, then either the dot-split segment loop or
the plain string followed by `"`. -/
def quoteSegmentsChars (s : List Char) : List Char :=
  '"' :: (if s.contains '.' then writeSegs (splitOnDot s) else s ++ ['"'])

/-- Dialector.QuoteTo from snowflake.go (lines 140-173), producing the
written text: with QuoteFields enabled, a detected function call emits
the name unquoted, `(`, the quote body of the arguments, `)`; otherwise
the quote body of the whole string.  With QuoteFields disabled the
input is lower-cased (Go `strings.ToLower`; identifiers here are ASCII,
for which `Char.toLower` agrees). -/
def quoteToChars (quoteFields : Bool) (str : List Char) : List Char :=
  if quoteFields then
    match findFuncMatch str with
    | some (name, args) => name ++ '(' :: (quoteSegmentsChars args ++ [')'])
    | none => quoteSegmentsChars str
  else str.map Char.toLower

/-- String-level wrapper of the quoter. -/
def QuoteTo (quoteFields : Bool) (s : String) : String :=
  String.mk (quoteToChars quoteFields s.data)

/-- Comma-style joining of fragments with a separator, used to state the
shape of generated lists (claim side). -/
def joinWith (sep : List Char) : List (List Char) → List Char
  | [] => []
  | [x] => x
  | x :: y :: xs => x ++ sep ++ joinWith sep (y :: xs)

/-- Config from snowflake.go (lines 33-46); the `Conn` pool handle is
omitted (opaque connection object, never read by the embedded logic).
Go zero-values unset fields, see `zeroConfig`. -/
structure Config where
  QuoteFields : Bool
  DriverName : String
  DSN : String
  MaxOpenConns : Int
  MaxIdleConns : Int
  ConnMaxLifetime : Int
  UseUnionSelect : Bool
deriving DecidableEq

/-- Go zero value of Config (all fields zero-valued, booleans false). -/
def zeroConfig : Config :=
  { QuoteFields := false, DriverName := "", DSN := "", MaxOpenConns := 0,
    MaxIdleConns := 0, ConnMaxLifetime := 0, UseUnionSelect := false }

/-- The dialector attached to a database handle as seen by the type
assertion `db.Dialector.(*Dialector)`: this package's Dialector with its
(possibly nil) Config, or some foreign dialector. -/
inductive DialectorRef where
  | snowflake (config : Option Config)
  | foreign
deriving DecidableEq

/-- shouldUseUnionSelect from create.go (lines 611-621): the configured
UseUnionSelect when the dialector is this package's with non-nil Config,
true in every other case. -/
def shouldUseUnionSelect : DialectorRef → Bool
  | DialectorRef.snowflake (some c) => c.UseUnionSelect
  | DialectorRef.snowflake none => true
  | DialectorRef.foreign => true

/-- Open from snowflake.go (lines 52-60). -/
def Open (dsn : String) : DialectorRef :=
  DialectorRef.snowflake
    (some { zeroConfig with DSN := dsn, DriverName := "snowflake", UseUnionSelect := true })

/-- New from snowflake.go (lines 62-64). -/
def New (config : Config) : DialectorRef :=
  DialectorRef.snowflake (some config)

/-- Which insert text builder Create selects in the non-conflict branch
(create.go lines 332-338). -/
inductive InsertMode where
  | unionSelect
  | plainValues
deriving DecidableEq

/-- Create's branch on `shouldUseUnionSelect`: true selects
buildUnionSelectInsert, false selects buildValuesInsert. -/
def insertModeFor (d : DialectorRef) : InsertMode :=
  if shouldUseUnionSelect d then InsertMode.unionSelect else InsertMode.plainValues

/-- Should-quote flag read by prepareOnConflictForMerge (create.go lines
557-560): Config.QuoteFields when the dialector is this package's with
non-nil Config, false otherwise. -/
def dialectorShouldQuote : DialectorRef → Bool
  | DialectorRef.snowflake (some c) => c.QuoteFields
  | DialectorRef.snowflake none => false
  | DialectorRef.foreign => false

/-- Schema field as used by Create/MergeCreate: database column name and
the auto-increment flag. -/
structure Field where
  DBName : List Char
  AutoIncrement : Bool
deriving DecidableEq

/-- The parts of gorm's schema read by Create/MergeCreate. -/
structure Schema where
  PrimaryFields : List Field
  PrioritizedPrimaryField : Option Field
deriving DecidableEq

/-- Bound SQL parameter values (the shapes used by the examples). -/
inductive Val where
  | s (v : String)
  | i (v : Int)
deriving DecidableEq

/-- clause.Values: ordered column names plus rows of bound values. -/
structure ValuesClause where
  Columns : List (List Char)
  Values : List (List Val)
deriving DecidableEq

/-- Which statement Create builds when the statement carries an
ON CONFLICT clause. -/
inductive CreatePath where
  | merge
  | plainInsert
deriving DecidableEq

/-- The conflict check of Create (create.go lines 300-318): the detected
conflict is honored only when there is at least one primary field and
every primary field's DBName occurs among the value columns (the Go code
materialises the column list as a set `columnsMap`; membership in that
map is membership in the column list). -/
def conflictGate (sch : Schema) (vc : ValuesClause) (hasConflict : Bool) : Bool :=
  if hasConflict then
    if sch.PrimaryFields.length > 0 then
      sch.PrimaryFields.all (fun f => vc.Columns.contains f.DBName)
    else false
  else false

/-- Create's dispatch (create.go lines 320-344): MergeCreate when the
conflict is honored, the plain insert path otherwise. -/
def createPath (sch : Schema) (vc : ValuesClause) (hasConflict : Bool) : CreatePath :=
  if conflictGate sch vc hasConflict then CreatePath.merge else CreatePath.plainInsert

/-- Inclusion test of the WHEN NOT MATCHED column loops in MergeCreate
(create.go lines 520 and 533): a column is written unless it is the
prioritized primary field's column and that field is auto-increment. -/
def includeInInsert (sch : Schema) (colName : List Char) : Bool :=
  match sch.PrioritizedPrimaryField with
  | none => true
  | some f => !f.AutoIncrement || (f.DBName != colName)

/-- One comma-separated filtered column loop of MergeCreate, with the
`written` flag carried by the Go code (create.go lines 518-527 and
531-542), rendering each included column with `render`. -/
def writeFiltered (sch : Schema) (cols : List (List Char)) (render : List Char → List Char) : List Char :=
  (cols.foldl
    (fun acc c =>
      if includeInInsert sch c then
        ((if acc.2 then acc.1 ++ [','] else acc.1) ++ render c, true)
      else acc)
    (([], false) : List Char × Bool)).1

/-- The WHEN NOT MATCHED tail of MergeCreate (create.go lines 514-545):
insert-column list (quoted) and VALUES list (`EXCLUDED.` then quoted
column), both filtered by `includeInInsert`. -/
def mergeWhenNotMatched (q : Bool) (sch : Schema) (cols : List (List Char)) : List Char :=
  (" WHEN NOT MATCHED THEN INSERT (").data
    ++ writeFiltered sch cols (quoteToChars q)
    ++ (") VALUES (").data
    ++ writeFiltered sch cols (fun c => ("EXCLUDED.").data ++ quoteToChars q c)
    ++ (");").data

/-- The statement accumulator: generated SQL text plus the bound
parameter list (gorm's Statement SQL builder and Vars slice). -/
structure Stmt where
  sql : List Char
  vars : List Val
deriving DecidableEq

/-- Statement.AddVar with the snowflake BindVarTo: writes `?` and
appends the value to Vars. -/
def addVar (st : Stmt) (v : Val) : Stmt :=
  { sql := st.sql ++ ['?'], vars := st.vars ++ [v] }

/-- WriteString / WriteByte on the statement. -/
def writeStr (st : Stmt) (s : List Char) : Stmt :=
  { st with sql := st.sql ++ s }

/-- A row of comma-separated placeholders: `if i > 0 write ','` then
AddVar, per value (gorm Statement.AddVar over a row, and the explicit
loops in the builders). -/
def writeRowVars (st : Stmt) : List Val → Stmt
  | [] => st
  | v :: vs => vs.foldl (fun acc w => addVar (writeStr acc [',']) w) (addVar st v)

/-- The quoted comma-separated column-list loop of the insert builders. -/
def writeColumnList (q : Bool) (st : Stmt) : List (List Char) → Stmt
  | [] => st
  | c :: cs =>
    cs.foldl (fun acc c2 => writeStr (writeStr acc [',']) (quoteToChars q c2))
      (writeStr st (quoteToChars q c))

/-- The row loop of buildUnionSelectInsert: rows of placeholders joined
by the literal " UNION SELECT " (create.go lines 655-669). -/
def writeUnionRows (st : Stmt) : List (List Val) → Stmt
  | [] => st
  | r :: rs =>
    rs.foldl (fun acc row => writeRowVars (writeStr acc (" UNION SELECT ").data) row)
      (writeRowVars st r)

/-- buildUnionSelectInsert from create.go (lines 625-672); the Vars
capacity pre-allocation is semantically a no-op and is not modelled. -/
def buildUnionSelectInsert (q : Bool) (st : Stmt) (vc : ValuesClause) : Stmt :=
  let st1 := writeStr st ("(").data
  let st2 := writeColumnList q st1 vc.Columns
  let st3 := writeStr st2 (") SELECT ").data
  let st4 := writeUnionRows st3 vc.Values
  writeStr st4 (";").data

/-- One parenthesized placeholder tuple of buildValuesInsert. -/
def writeTuple (st : Stmt) (row : List Val) : Stmt :=
  writeStr (writeRowVars (writeStr st ("(").data) row) (")").data

/-- The row loop of buildValuesInsert: comma-joined tuples. -/
def writeTuples (st : Stmt) : List (List Val) → Stmt
  | [] => st
  | r :: rs =>
    rs.foldl (fun acc row => writeTuple (writeStr acc (",").data) row)
      (writeTuple st r)

/-- buildValuesInsert from create.go (lines 676-718); the Vars capacity
pre-allocation is semantically a no-op and is not modelled. -/
def buildValuesInsert (q : Bool) (st : Stmt) (vc : ValuesClause) : Stmt :=
  let st1 := writeStr st ("(").data
  let st2 := writeColumnList q st1 vc.Columns
  let st3 := writeStr st2 (")").data
  let st4 := writeStr st3 (" VALUES ").data
  let st5 := writeTuples st4 vc.Values
  writeStr st5 (";").data

/-- Modelled from the spec: the text the ORM runtime's INSERT clause
machinery emits before the insert builders run (`Build("INSERT")` then a
space, producing `INSERT INTO <quoted table> `); the gorm clause builder
itself is an external collaborator, and spec section 8 pins the literal
output. -/
def insertStmtStart (q : Bool) (table : List Char) : List Char :=
  ("INSERT INTO ").data ++ quoteToChars q table ++ (" ").data

/-- Go `strings.ToLower` on identifier strings (ASCII; `Char.toLower`
agrees on ASCII letters). -/
def strToLower (s : String) : String :=
  String.mk (s.data.map Char.toLower)

/-- Go `strings.HasPrefix`. -/
def strStartsWith (s p : String) : Bool :=
  p.data.isPrefixOf s.data

/-- Go slice `s[n:]`; for the ASCII token prefix sliced off here, byte
positions and character positions coincide. -/
def strDropChars (s : String) (n : Nat) : String :=
  String.mk (s.data.drop n)

/-- The polymorphic value of an update assignment, gorm's
`interface{}`: a column reference (clause.Column), a raw expression
(clause.Expr), or a literal bound value.  Only the clause.Column shape
is inspected by the rewriter (`assignment.Value.(clause.Column)`). -/
inductive AssignValue where
  | column (name : String)
  | expr (sql : String)
  | value (v : Val)
deriving DecidableEq

/-- One update assignment of the ON CONFLICT DoUpdates set: target
column name and assignment value. -/
structure Assignment where
  Column : String
  Value : AssignValue
deriving DecidableEq

/-- The `EXCLUDED.`-qualified raw expression produced by the rewriter:
`fmt.Sprintf("EXCLUDED.\"%s\"", part)` when quoting is on,
`fmt.Sprintf("EXCLUDED.%s", part)` when off. -/
def excludedExpr (shouldQuote : Bool) (part : String) : String :=
  if shouldQuote then "EXCLUDED.\"" ++ part ++ "\"" else "EXCLUDED." ++ part

/-- The per-assignment rewrite of prepareOnConflictForMerge (create.go
lines 565-604): a clause.Column whose lower-cased name has the
"excluded." separator token as a leading piece keeps only the suffix
after that token; any other clause.Column keeps its whole name; both
become EXCLUDED-qualified raw expressions; non-Column values are left
alone. -/
def transformAssignment (shouldQuote : Bool) (a : Assignment) : Assignment :=
  match a.Value with
  | AssignValue.column colName =>
    if strStartsWith (strToLower colName) "excluded." then
      { a with Value := AssignValue.expr (excludedExpr shouldQuote (strDropChars colName ("excluded.").length)) }
    else
      { a with Value := AssignValue.expr (excludedExpr shouldQuote colName) }
  | _ => a

/-- prepareOnConflictForMerge from create.go (lines 551-609); the
should-quote flag is `dialectorShouldQuote` of the handle's dialector,
passed here as the Bool it evaluates to. -/
def prepareOnConflictForMerge (shouldQuote : Bool) (doUpdates : List Assignment) : List Assignment :=
  if doUpdates.isEmpty then doUpdates
  else doUpdates.map (transformAssignment shouldQuote)

/-- An input object of the default-value recovery step, reduced to its
default-column fields (the only state Create reads and writes there);
the objects are struct values (the reflection non-struct guard of the
Go loop is never hit for them). -/
structure RObj where
  defaults : List Int
deriving DecidableEq

/-- Go `!fieldValue.IsZero()` over any of the object's default-column
fields (create.go lines 412-419). -/
def hasNonZeroDefaults (o : RObj) : Bool :=
  o.defaults.any (fun v => v != 0)

/-- rows.Scan into the object's default-column field addresses: the
fields take the returned row's values. -/
def scanObj (_o : RObj) (row : List Int) : RObj :=
  { defaults := row }

/-- The inner `for reflectIndex < maxLen` loop of the slice branch of
the recovery step (create.go lines 405-441), for one returned row:
skip objects with a non-zero default field, scan the row into the first
all-zero object (recording a scan error instead of updating on a failed
scan), and return the updated objects, the new index, and the error
list. -/
def innerLoop (objs : List RObj) (i : Nat) (row : Except Nat (List Int)) (errs : List Nat) :
    List RObj × Nat × List Nat :=
  if h : i < objs.length then
    if hasNonZeroDefaults objs[i] then innerLoop objs (i + 1) row errs
    else
      match row with
      | Except.ok r => (objs.set i (scanObj objs[i] r), i + 1, errs)
      | Except.error e => (objs, i + 1, errs ++ [e])
  else (objs, i, errs)
termination_by objs.length - i

/-- The outer `for rows.Next() && reflectIndex < maxLen` loop of the
recovery step (create.go lines 403-442): one returned row consumed per
iteration, handed to the inner loop. -/
def outerLoop (objs : List RObj) (i : Nat) (rows : List (Except Nat (List Int))) (errs : List Nat) :
    List RObj × List Nat :=
  match rows with
  | [] => (objs, errs)
  | row :: rest =>
    if i < objs.length then
      let r := innerLoop objs i row errs
      outerLoop r.1 r.2.1 rest r.2.2
    else (objs, errs)

/-- The slice branch of the recovery step including the change-tracking
query outcome (create.go lines 387-442): a query execution error is
recorded and processing stops before any row is consumed; otherwise the
row loop runs.  Errors are the values passed to db.AddError, in order. -/
def populateDefaultValues (objs : List RObj) (queryResult : Except Nat (List (Except Nat (List Int)))) :
    List RObj × List Nat :=
  match queryResult with
  | Except.error e => (objs, [e])
  | Except.ok rows => outerLoop objs 0 rows []

/-- Specification-side correlation heuristic (spec section 4.5 / claim
C8), stated structurally: returned rows are consumed in order; an input
object with a non-zero default field is passed over without consuming a
row; the next row is scanned into the first all-zero object; processing
stops when objects or rows run out. -/
def recoverSpec : List RObj → List (List Int) → List RObj
  | objs, [] => objs
  | [], _ :: _ => []
  | o :: os, row :: rest =>
    if hasNonZeroDefaults o then o :: recoverSpec os (row :: rest)
    else scanObj o row :: recoverSpec os rest

/-- Error-aware structural restatement of the recovery loop, used as a
stepping stone between the indexed loops and the claims: same
correlation, with a failed row scan recording its error and leaving the
object unchanged. -/
def recoverE : List RObj → List (Except Nat (List Int)) → List Nat → List RObj × List Nat
  | objs, [], errs => (objs, errs)
  | [], _ :: _, errs => ([], errs)
  | o :: os, row :: rest, errs =>
    if hasNonZeroDefaults o then
      let r := recoverE os (row :: rest) errs
      (o :: r.1, r.2)
    else
      match row with
      | Except.ok v =>
        let r := recoverE os rest errs
        (scanObj o v :: r.1, r.2)
      | Except.error e =>
        let r := recoverE os rest (errs ++ [e])
        (o :: r.1, r.2)
termination_by objs rows _ => (rows.length, objs.length)

/-- A list without `)` has no split at a right parenthesis. -/
theorem splitAtRParen_eq_none (l : List Char) (h : ')' ∉ l) : splitAtRParen l = none := by
  induction l with
  | nil => rfl
  | cons c cs ih =>
    have hc : ¬c = ')' := fun hh => h (hh ▸ List.mem_cons_self c cs)
    have hcs : ')' ∉ cs := fun hh => h (List.mem_cons_of_mem c hh)
    simp [splitAtRParen, hc, ih hcs]

/-- The part before the found right parenthesis contains no `)`. -/
theorem splitAtRParen_not_mem (l a r : List Char) (h : splitAtRParen l = some (a, r)) : ')' ∉ a := by
  induction l generalizing a r with
  | nil => simp [splitAtRParen] at h
  | cons c cs ih =>
    by_cases hc : c = ')'
    · subst hc
      simp [splitAtRParen] at h
      obtain ⟨h1, h2⟩ := h
      subst h1
      simp
    · simp only [splitAtRParen, if_neg hc] at h
      rcases hsp : splitAtRParen cs with _ | ⟨a2, r2⟩ <;> rw [hsp] at h
      · simp at h
      · simp at h
        obtain ⟨h1, h2⟩ := h
        subst h1
        intro hmem
        rcases List.mem_cons.mp hmem with h3 | h3
        · exact hc h3.symm
        · exact ih a2 r2 hsp h3

/-- The rest returned by the word-run scanner is a sublist of the input. -/
theorem takeRun_snd_sublist (l : List Char) : (takeRun l).2.Sublist l := by
  induction l with
  | nil => simp [takeRun]
  | cons c cs ih =>
    by_cases hc : isWordChar c
    · simp only [takeRun, hc, if_pos]
      exact ih.cons c
    · simp [takeRun, hc]

/-- A list without `)` admits no function-call match attempt at its
head. -/
theorem tryMatchAt_eq_none (l : List Char) (h : ')' ∉ l) : tryMatchAt l = none := by
  unfold tryMatchAt
  by_cases hn : (takeRun l).1 = []
  · simp [hn]
  · simp only [hn, if_neg, if_false]
    rcases hr : (takeRun l).2 with _ | ⟨c, rest⟩
    · simp
    · have hsub : c :: rest ∈ [(takeRun l).2] := by simp [hr]
      have hrest : ∀ x ∈ c :: rest, x ∈ l := by
        intro x hx
        exact (takeRun_snd_sublist l).mem (hr ▸ hx)
      by_cases hc : c = '('
      · subst hc
        simp only []
        rcases rest with _ | ⟨d, ds⟩
        · simp [takeArgs]
        · have : ')' ∉ ds := by
            intro hh
            exact h (hrest ')' (by simp [hh]))
          simp [takeArgs, splitAtRParen_eq_none ds this]
      · simp [hc]

/-- A list without `)` has no function-call match anywhere. -/
theorem findFuncMatch_eq_none (l : List Char) (h : ')' ∉ l) : findFuncMatch l = none := by
  induction l with
  | nil => rfl
  | cons c cs ih =>
    have hcs : ')' ∉ cs := fun hh => h (List.mem_cons_of_mem c hh)
    simp [findFuncMatch, tryMatchAt_eq_none (c :: cs) h, ih hcs]

/-- The argument part of a successful match attempt is nonempty and has
no `)` after its first character. -/
theorem tryMatchAt_args_shape (l n a : List Char) (h : tryMatchAt l = some (n, a)) :
    ∃ c a2, a = c :: a2 ∧ ')' ∉ a2 := by
  unfold tryMatchAt at h
  by_cases hn : (takeRun l).1 = []
  · simp [hn] at h
  · simp only [hn, if_neg, if_false] at h
    rcases hr : (takeRun l).2 with _ | ⟨c, rest⟩ <;> rw [hr] at h
    · simp at h
    · by_cases hc : c = '('
      · subst hc
        simp only [] at h
        rcases rest with _ | ⟨d, ds⟩
        · simp [takeArgs] at h
        · rcases hsp : splitAtRParen ds with _ | ⟨a2, r2⟩ <;>
            simp [takeArgs, hsp] at h
          exact ⟨d, a2, h.2.symm, splitAtRParen_not_mem ds a2 r2 hsp⟩
      · simp [hc] at h

/-- No function-call match occurs inside the argument part of a
function-call match: the argument part never contains a `)` beyond its
first character, while a match needs one further in. -/
theorem findFuncMatch_args_none (s n a : List Char) (h : findFuncMatch s = some (n, a)) :
    findFuncMatch a = none := by
  induction s with
  | nil => simp [findFuncMatch] at h
  | cons c cs ih =>
    simp only [findFuncMatch] at h
    rcases ht : tryMatchAt (c :: cs) with _ | ⟨n2, a2v⟩ <;> rw [ht] at h
    · exact ih h
    · simp at h
      obtain ⟨h1, h2⟩ := h
      subst h1
      subst h2
      obtain ⟨d, a2, ha, hmem⟩ := tryMatchAt_args_shape (c :: cs) _ _ ht
      subst ha
      by_cases hd : d = ')'
      · have h1 : tryMatchAt (d :: a2) = none := by
          unfold tryMatchAt
          have : (takeRun (d :: a2)).1 = [] := by
            have : isWordChar d = false := by subst hd; rfl
            simp [takeRun, this]
          simp [this]
        have h2 : findFuncMatch a2 = none := findFuncMatch_eq_none a2 hmem
        simp [findFuncMatch, h1, h2]
      · exact findFuncMatch_eq_none (d :: a2) (by
          intro hh
          rcases List.mem_cons.mp hh with h3 | h3
          · exact hd h3.symm
          · exact hmem h3)

/-- A string with no dot splits into itself alone. -/
theorem splitOnDot_of_not_mem (l : List Char) (h : '.' ∉ l) : splitOnDot l = [l] := by
  induction l with
  | nil => rfl
  | cons c cs ih =>
    have hc : ¬c = '.' := fun hh => h (hh ▸ List.mem_cons_self c cs)
    have hcs : '.' ∉ cs := fun hh => h (List.mem_cons_of_mem c hh)
    simp [splitOnDot, hc, ih hcs]

/-- Dot-splitting never yields an empty list of segments. -/
theorem splitOnDot_ne_nil (l : List Char) : splitOnDot l ≠ [] := by
  cases l with
  | nil => simp [splitOnDot]
  | cons c cs =>
    by_cases hc : c = '.'
    · simp [splitOnDot, hc]
    · simp only [splitOnDot, hc, if_false, if_neg]
      rcases h : splitOnDot cs with _ | ⟨p, ps⟩ <;> simp

/-- The segment loop of the quoter equals joining the double-quoted
segments with dots. -/
theorem writeSegs_eq_joinWith (p : List Char) (ps : List (List Char)) :
    '"' :: writeSegs (p :: ps) =
      joinWith ['.'] ((p :: ps).map (fun q => '"' :: (q ++ ['"']))) := by
  induction ps generalizing p with
  | nil => simp [writeSegs, writeSegsRest, joinWith]
  | cons y ys ih =>
    have hy := ih y
    simp only [writeSegs, writeSegsRest] at hy ⊢
    simp only [List.map_cons, joinWith] at hy ⊢
    rcases hm : ys.map (fun q => '"' :: (q ++ ['"'])) with _ | ⟨m, ms⟩ <;>
      rw [hm] at hy <;> simp_all

/-- Quote body of the quoter as a join of quoted dot-segments. -/
theorem quoteSegmentsChars_eq (s : List Char) :
    quoteSegmentsChars s = joinWith ['.'] ((splitOnDot s).map (fun p => '"' :: (p ++ ['"']))) := by
  unfold quoteSegmentsChars
  by_cases hc : s.contains '.'
  · rcases hsp : splitOnDot s with _ | ⟨p, ps⟩
    · exact absurd hsp (splitOnDot_ne_nil s)
    · rw [if_pos hc, ← hsp]
      rw [hsp]
      exact writeSegs_eq_joinWith p ps
  · have hmem : '.' ∉ s := by
      intro hh
      exact hc (List.elem_iff.mpr hh)
    rw [if_neg (by simpa using hc), splitOnDot_of_not_mem s hmem]
    simp [joinWith]

/-- Claim C7: the quoter lower-cases with quoting disabled; with
quoting enabled it treats a function-call match by emitting the name
bare, an opening parenthesis, the recursively quoted argument part and
a closing parenthesis, and otherwise emits the dot-separated segments
each wrapped in double quotes and joined with dots. -/
theorem claimC7_quoter :
    (∀ s : List Char, quoteToChars false s = s.map Char.toLower) ∧
    (∀ s n a : List Char, findFuncMatch s = some (n, a) →
      quoteToChars true s = n ++ '(' :: (quoteToChars true a ++ [')'])) ∧
    (∀ s : List Char, findFuncMatch s = none →
      quoteToChars true s =
        joinWith ['.'] ((splitOnDot s).map (fun p => '"' :: (p ++ ['"'])))) := by
  refine ⟨fun s => rfl, fun s n a h => ?_, fun s h => ?_⟩
  · have hnone : findFuncMatch a = none := findFuncMatch_args_none s n a h
    show quoteToChars true s = n ++ '(' :: (quoteToChars true a ++ [')'])
    simp [quoteToChars, h, hnone]
  · rw [← quoteSegmentsChars_eq]
    simp [quoteToChars, h]

/-- Witness for claim C7: the function-call branch at COUNT(x.y) and
the segment branch at a.b. -/
theorem claimC7_witness :
    findFuncMatch ("COUNT(x.y)").data = some (("COUNT").data, ("x.y").data) ∧
    quoteToChars true ("COUNT(x.y)").data =
      ("COUNT").data ++ '(' :: (quoteToChars true ("x.y").data ++ [')']) ∧
    findFuncMatch ("a.b").data = none ∧
    quoteToChars true ("a.b").data =
      joinWith ['.'] ((splitOnDot ("a.b").data).map (fun p => '"' :: (p ++ ['"']))) := by
  refine ⟨by decide, ?_, by decide, ?_⟩
  · exact claimC7_quoter.2.1 ("COUNT(x.y)").data ("COUNT").data ("x.y").data (by decide)
  · exact claimC7_quoter.2.2 ("a.b").data (by decide)

/-- Join of a nonempty fragment list as the head plus separator-led
continuations. -/
theorem joinWith_cons_flatten (sep m : List Char) (ms : List (List Char)) :
    joinWith sep (m :: ms) = m ++ (ms.map (fun x => sep ++ x)).flatten := by
  induction ms generalizing m with
  | nil => simp [joinWith]
  | cons y ys ih => simp [joinWith, ih y, List.append_assoc]

/-- Vars accumulated by the comma-separated placeholder fold. -/
theorem rowFold_vars (vs : List Val) (st : Stmt) :
    (vs.foldl (fun acc w => addVar (writeStr acc [',']) w) st).vars = st.vars ++ vs := by
  induction vs generalizing st with
  | nil => simp
  | cons v vs ih =>
    rw [List.foldl_cons, ih]
    simp [addVar, writeStr, List.append_assoc]

/-- Vars accumulated by a row of placeholders: the row itself. -/
theorem writeRowVars_vars (st : Stmt) (row : List Val) :
    (writeRowVars st row).vars = st.vars ++ row := by
  cases row with
  | nil => simp [writeRowVars]
  | cons v vs =>
    simp only [writeRowVars]
    rw [rowFold_vars]
    simp [addVar, writeStr]

/-- The column-list fold writes no vars. -/
theorem colFold_vars (q : Bool) (cs : List (List Char)) (st : Stmt) :
    (cs.foldl (fun acc c2 => writeStr (writeStr acc [',']) (quoteToChars q c2)) st).vars
      = st.vars := by
  induction cs generalizing st with
  | nil => rfl
  | cons d ds ih => rw [List.foldl_cons, ih]; rfl

/-- The column list writes no vars. -/
theorem writeColumnList_vars (q : Bool) (st : Stmt) (cols : List (List Char)) :
    (writeColumnList q st cols).vars = st.vars := by
  cases cols with
  | nil => rfl
  | cons c cs =>
    simp only [writeColumnList]
    rw [colFold_vars]
    rfl

/-- Vars accumulated by the UNION SELECT row fold: the rows flattened
in order. -/
theorem unionFold_vars (rs : List (List Val)) (st : Stmt) :
    (rs.foldl (fun acc row => writeRowVars (writeStr acc (" UNION SELECT ").data) row) st).vars
      = st.vars ++ rs.flatten := by
  induction rs generalizing st with
  | nil => simp
  | cons r2 rs2 ih =>
    rw [List.foldl_cons, ih]
    simp [writeRowVars_vars, writeStr, List.append_assoc]

/-- Vars accumulated by the union row loop: the rows flattened. -/
theorem writeUnionRows_vars (st : Stmt) (rows : List (List Val)) :
    (writeUnionRows st rows).vars = st.vars ++ rows.flatten := by
  cases rows with
  | nil => simp [writeUnionRows]
  | cons r rs =>
    simp only [writeUnionRows]
    rw [unionFold_vars]
    simp [writeRowVars_vars, List.append_assoc]

/-- Vars accumulated by one VALUES tuple: the row. -/
theorem writeTuple_vars (st : Stmt) (row : List Val) :
    (writeTuple st row).vars = st.vars ++ row := by
  simp [writeTuple, writeStr, writeRowVars_vars]

/-- Vars accumulated by the VALUES tuple fold. -/
theorem tupleFold_vars (rs : List (List Val)) (st : Stmt) :
    (rs.foldl (fun acc row => writeTuple (writeStr acc (",").data) row) st).vars
      = st.vars ++ rs.flatten := by
  induction rs generalizing st with
  | nil => simp
  | cons r2 rs2 ih =>
    rw [List.foldl_cons, ih]
    simp [writeTuple_vars, writeStr, List.append_assoc]

/-- Vars accumulated by the VALUES tuple loop: the rows flattened. -/
theorem writeTuples_vars (st : Stmt) (rows : List (List Val)) :
    (writeTuples st rows).vars = st.vars ++ rows.flatten := by
  cases rows with
  | nil => simp [writeTuples]
  | cons r rs =>
    simp only [writeTuples]
    rw [tupleFold_vars]
    simp [writeTuple_vars, List.append_assoc]

/-- Vars of the union-select insert builder: input vars plus all row
values in row-major order. -/
theorem buildUnionSelectInsert_vars (q : Bool) (st : Stmt) (vc : ValuesClause) :
    (buildUnionSelectInsert q st vc).vars = st.vars ++ vc.Values.flatten := by
  simp [buildUnionSelectInsert, writeStr, writeUnionRows_vars, writeColumnList_vars]

/-- Vars of the plain VALUES insert builder: input vars plus all row
values in row-major order. -/
theorem buildValuesInsert_vars (q : Bool) (st : Stmt) (vc : ValuesClause) :
    (buildValuesInsert q st vc).vars = st.vars ++ vc.Values.flatten := by
  simp [buildValuesInsert, writeStr, writeTuples_vars, writeColumnList_vars]

/-- Length of the flattened rows when every row has the same width. -/
theorem flatten_length_uniform (rows : List (List Val)) (c : Nat)
    (h : ∀ r ∈ rows, r.length = c) : rows.flatten.length = rows.length * c := by
  induction rows with
  | nil => simp
  | cons r rs ih =>
    have hr : r.length = c := h r (List.mem_cons_self r rs)
    have hrs : ∀ x ∈ rs, x.length = c := fun x hx => h x (List.mem_cons_of_mem r hx)
    simp [hr, ih hrs, Nat.succ_mul, Nat.add_comm]

/-- Claim C5: for a Row-Set with r rows and c > 0 columns where every
row carries exactly c values, both insert builders append exactly r * c
bound parameters, in row-major order (row 0's values first, then row
1's, and so on). -/
theorem claimC5_param_count : ∀ (q : Bool) (st : Stmt) (vc : ValuesClause),
    0 < vc.Columns.length →
    (∀ row ∈ vc.Values, row.length = vc.Columns.length) →
    (buildUnionSelectInsert q st vc).vars = st.vars ++ vc.Values.flatten ∧
    (buildValuesInsert q st vc).vars = st.vars ++ vc.Values.flatten ∧
    (buildUnionSelectInsert q st vc).vars.length
      = st.vars.length + vc.Values.length * vc.Columns.length ∧
    (buildValuesInsert q st vc).vars.length
      = st.vars.length + vc.Values.length * vc.Columns.length := by
  intro q st vc _ hrows
  refine ⟨buildUnionSelectInsert_vars q st vc, buildValuesInsert_vars q st vc, ?_, ?_⟩ <;>
    simp [buildUnionSelectInsert_vars, buildValuesInsert_vars,
      flatten_length_uniform vc.Values vc.Columns.length hrows]

/-- Witness for claim C5 at the three-row two-column example. -/
theorem claimC5_witness :
    (buildUnionSelectInsert true { sql := [], vars := [] }
        { Columns := [("name").data, ("age").data],
          Values := [[Val.s "John", Val.i 25], [Val.s "Jane", Val.i 30], [Val.s "Bob", Val.i 35]] }).vars
      = [Val.s "John", Val.i 25, Val.s "Jane", Val.i 30, Val.s "Bob", Val.i 35] ∧
    (buildValuesInsert true { sql := [], vars := [] }
        { Columns := [("name").data, ("age").data],
          Values := [[Val.s "John", Val.i 25], [Val.s "Jane", Val.i 30], [Val.s "Bob", Val.i 35]] }).vars.length
      = 3 * 2 := by
  have h := claimC5_param_count true { sql := [], vars := [] }
    { Columns := [("name").data, ("age").data],
      Values := [[Val.s "John", Val.i 25], [Val.s "Jane", Val.i 30], [Val.s "Bob", Val.i 35]] }
    (by decide) (by decide)
  exact ⟨(h.1).trans (by decide), (h.2.2.2).trans (by decide)⟩

/-- SQL text written by the comma-separated placeholder fold. -/
theorem rowFold_sql (vs : List Val) (st : Stmt) :
    (vs.foldl (fun acc w => addVar (writeStr acc [',']) w) st).sql
      = st.sql ++ (vs.map (fun _ => ([','] : List Char) ++ ['?'])).flatten := by
  induction vs generalizing st with
  | nil => simp
  | cons v vs ih =>
    rw [List.foldl_cons, ih]
    simp [addVar, writeStr, List.append_assoc]

/-- SQL text of a row of placeholders: comma-joined question marks. -/
theorem writeRowVars_sql (st : Stmt) (row : List Val) :
    (writeRowVars st row).sql = st.sql ++ joinWith [','] (row.map (fun _ => (['?'] : List Char))) := by
  cases row with
  | nil => simp [writeRowVars, joinWith]
  | cons v vs =>
    simp only [writeRowVars]
    rw [rowFold_sql, List.map_cons, joinWith_cons_flatten]
    simp [addVar, writeStr, List.map_map, Function.comp, List.append_assoc]

/-- SQL text written by the column-list fold. -/
theorem colFold_sql (q : Bool) (cs : List (List Char)) (st : Stmt) :
    (cs.foldl (fun acc c2 => writeStr (writeStr acc [',']) (quoteToChars q c2)) st).sql
      = st.sql ++ (cs.map (fun c => ([','] : List Char) ++ quoteToChars q c)).flatten := by
  induction cs generalizing st with
  | nil => simp
  | cons d ds ih =>
    rw [List.foldl_cons, ih]
    simp [writeStr, List.append_assoc]

/-- SQL text of the quoted column list: comma-joined quoted columns. -/
theorem writeColumnList_sql (q : Bool) (st : Stmt) (cols : List (List Char)) :
    (writeColumnList q st cols).sql = st.sql ++ joinWith [','] (cols.map (quoteToChars q)) := by
  cases cols with
  | nil => simp [writeColumnList, joinWith]
  | cons c cs =>
    simp only [writeColumnList]
    rw [colFold_sql, List.map_cons, joinWith_cons_flatten]
    simp [writeStr, List.map_map, Function.comp_def, List.append_assoc]

/-- SQL text written by the UNION SELECT row fold. -/
theorem unionFold_sql (rs : List (List Val)) (st : Stmt) :
    (rs.foldl (fun acc row => writeRowVars (writeStr acc (" UNION SELECT ").data) row) st).sql
      = st.sql ++ (rs.map (fun row =>
          (" UNION SELECT ").data ++ joinWith [','] (row.map (fun _ => (['?'] : List Char))))).flatten := by
  induction rs generalizing st with
  | nil => simp
  | cons r2 rs2 ih =>
    rw [List.foldl_cons, ih]
    simp [writeRowVars_sql, writeStr, List.append_assoc]

/-- SQL text of the union row loop: per-row placeholder lists joined by
the literal " UNION SELECT ". -/
theorem writeUnionRows_sql (st : Stmt) (rows : List (List Val)) :
    (writeUnionRows st rows).sql
      = st.sql ++ joinWith ((" UNION SELECT ").data)
          (rows.map (fun row => joinWith [','] (row.map (fun _ => (['?'] : List Char))))) := by
  cases rows with
  | nil => simp [writeUnionRows, joinWith]
  | cons r rs =>
    simp only [writeUnionRows]
    rw [unionFold_sql, List.map_cons, joinWith_cons_flatten]
    simp [writeRowVars_sql, List.map_map, Function.comp_def, List.append_assoc]

/-- Claim C6: in union mode, after the quoted column list the text is
SELECT with one comma-separated placeholder per value of the first row,
each further row preceded by the literal " UNION SELECT ", terminated
by a semicolon; evaluated at the three-row example of the spec it gives
the pinned statement and parameter list exactly. -/
theorem claimC6_union_text :
    (∀ (q : Bool) (st : Stmt) (vc : ValuesClause), vc.Columns ≠ [] →
      (buildUnionSelectInsert q st vc).sql =
        st.sql ++ ("(").data ++ joinWith [','] (vc.Columns.map (quoteToChars q))
          ++ (") SELECT ").data
          ++ joinWith ((" UNION SELECT ").data)
              (vc.Values.map (fun row => joinWith [','] (row.map (fun _ => (['?'] : List Char)))))
          ++ (";").data) ∧
    buildUnionSelectInsert true { sql := insertStmtStart true ("test_models").data, vars := [] }
        { Columns := [("name").data, ("age").data],
          Values := [[Val.s "John", Val.i 25], [Val.s "Jane", Val.i 30], [Val.s "Bob", Val.i 35]] }
      = { sql := ("INSERT INTO \"test_models\" (\"name\",\"age\") SELECT ?,? UNION SELECT ?,? UNION SELECT ?,?;").data,
          vars := [Val.s "John", Val.i 25, Val.s "Jane", Val.i 30, Val.s "Bob", Val.i 35] } := by
  constructor
  · intro q st vc _
    simp [buildUnionSelectInsert, writeStr, writeUnionRows_sql, writeColumnList_sql,
      List.append_assoc]
  · decide

/-- Witness for claim C6's general part at the spec example inputs. -/
theorem claimC6_witness :
    (buildUnionSelectInsert true { sql := [], vars := [] }
        { Columns := [("name").data, ("age").data],
          Values := [[Val.s "John", Val.i 25], [Val.s "Jane", Val.i 30]] }).sql
      = ([] : List Char) ++ ("(").data
          ++ joinWith [','] ([("name").data, ("age").data].map (quoteToChars true))
          ++ (") SELECT ").data
          ++ joinWith ((" UNION SELECT ").data)
              ([[Val.s "John", Val.i 25], [Val.s "Jane", Val.i 30]].map
                (fun row => joinWith [','] (row.map (fun _ => (['?'] : List Char)))))
          ++ (";").data :=
  claimC6_union_text.1 true { sql := [], vars := [] }
    { Columns := [("name").data, ("age").data],
      Values := [[Val.s "John", Val.i 25], [Val.s "Jane", Val.i 30]] }
    (by decide)

/-- The written-flag fold of MergeCreate equals a comma-join of the
rendered included columns, from any starting accumulator. -/
theorem writeFiltered_go (sch : Schema) (render : List Char → List Char)
    (cols : List (List Char)) (s : List Char) (b : Bool) :
    (cols.foldl
        (fun acc c =>
          if includeInInsert sch c then
            ((if acc.2 then acc.1 ++ [','] else acc.1) ++ render c, true)
          else acc)
        (s, b)).1
      = if (cols.filter (fun c => includeInInsert sch c)).map render = [] then s
        else (if b then s ++ [','] else s)
          ++ joinWith [','] ((cols.filter (fun c => includeInInsert sch c)).map render) := by
  induction cols generalizing s b with
  | nil => simp
  | cons c cs ih =>
    by_cases hc : includeInInsert sch c
    · rw [List.foldl_cons]
      simp only [hc, if_pos, if_true, List.filter_cons, List.map_cons]
      rw [ih]
      rcases hm : (cs.filter (fun c => includeInInsert sch c)).map render with _ | ⟨m, ms⟩
      · simp [joinWith]
      · simp only [joinWith, List.cons_ne_self, if_neg, if_true]
        simp [List.append_assoc]
    · rw [List.foldl_cons]
      simp only [hc, if_neg, if_false, List.filter_cons]
      rw [ih]
      simp [hc]

/-- The written-flag fold of MergeCreate as a comma-join of the
rendered included columns. -/
theorem writeFiltered_eq (sch : Schema) (cols : List (List Char))
    (render : List Char → List Char) :
    writeFiltered sch cols render
      = joinWith [','] ((cols.filter (fun c => includeInInsert sch c)).map render) := by
  unfold writeFiltered
  rw [writeFiltered_go]
  rcases hm : (cols.filter (fun c => includeInInsert sch c)).map render with _ | ⟨m, ms⟩ <;>
    simp [joinWith]

/-- With an auto-increment prioritized primary field, inclusion is
exactly the condition of not being that field's column. -/
theorem includeInInsert_of_autoinc (sch : Schema) (f : Field)
    (hf : sch.PrioritizedPrimaryField = some f) (ha : f.AutoIncrement = true) :
    ∀ c, includeInInsert sch c = (f.DBName != c) := by
  intro c
  simp [includeInInsert, hf, ha]

/-- Claim C4: in the synthesized MERGE statement, when the prioritized
primary field is auto-increment, its column is dropped from both the
WHEN NOT MATCHED THEN INSERT column list and its VALUES list, and every
other Row-Set column appears in both lists in the Row-Set's original
order. -/
theorem claimC4_identity_excluded :
    ∀ (q : Bool) (sch : Schema) (cols : List (List Char)) (f : Field),
    sch.PrioritizedPrimaryField = some f → f.AutoIncrement = true →
    mergeWhenNotMatched q sch cols =
      (" WHEN NOT MATCHED THEN INSERT (").data
        ++ joinWith [','] ((cols.filter (fun c => f.DBName != c)).map (quoteToChars q))
        ++ (") VALUES (").data
        ++ joinWith [','] ((cols.filter (fun c => f.DBName != c)).map
            (fun c => ("EXCLUDED.").data ++ quoteToChars q c))
        ++ (");").data := by
  intro q sch cols f hf ha
  unfold mergeWhenNotMatched
  rw [writeFiltered_eq, writeFiltered_eq]
  have hfil : cols.filter (fun c => includeInInsert sch c)
      = cols.filter (fun c => f.DBName != c) := by
    apply List.filter_congr
    intro c _
    exact includeInInsert_of_autoinc sch f hf ha c
  rw [hfil]

/-- Witness for claim C4 at the spec's upsert example: identity column
id together with columns name, age, id. -/
theorem claimC4_witness :
    mergeWhenNotMatched true
        { PrimaryFields := [{ DBName := ("id").data, AutoIncrement := true }],
          PrioritizedPrimaryField := some { DBName := ("id").data, AutoIncrement := true } }
        [("name").data, ("age").data, ("id").data]
      = (" WHEN NOT MATCHED THEN INSERT (\"name\",\"age\") VALUES (EXCLUDED.\"name\",EXCLUDED.\"age\");").data := by
  have h := claimC4_identity_excluded true
    { PrimaryFields := [{ DBName := ("id").data, AutoIncrement := true }],
      PrioritizedPrimaryField := some { DBName := ("id").data, AutoIncrement := true } }
    [("name").data, ("age").data, ("id").data]
    { DBName := ("id").data, AutoIncrement := true } rfl rfl
  exact h.trans (by decide)

/-- The rewriter is the per-assignment transformation mapped over the
list (the empty-list early return coincides with the empty map). -/
theorem prepare_eq_map (q : Bool) (us : List Assignment) :
    prepareOnConflictForMerge q us = us.map (transformAssignment q) := by
  unfold prepareOnConflictForMerge
  cases us <;> simp

/-- The rewriter preserves the number of assignments. -/
theorem prepare_length (q : Bool) (us : List Assignment) :
    (prepareOnConflictForMerge q us).length = us.length := by
  rw [prepare_eq_map]
  exact List.length_map us (transformAssignment q)

/-- Transformation of one conflict-reference assignment: token stripped
case-insensitively, canonical upper-case token emitted, suffix quoted
per the flag. -/
theorem transformAssignment_excluded (q : Bool) (a : Assignment) (colName : String)
    (hval : a.Value = AssignValue.column colName)
    (hsw : strStartsWith (strToLower colName) "excluded." = true) :
    transformAssignment q a =
      { Column := a.Column,
        Value := AssignValue.expr (if q
          then "EXCLUDED.\"" ++ strDropChars colName ("excluded.").length ++ "\""
          else "EXCLUDED." ++ strDropChars colName ("excluded.").length) } := by
  cases a with
  | mk ac av =>
    simp only [] at hval
    subst hval
    simp [transformAssignment, hsw, excludedExpr]

/-- Claim C1: every update-assignment value that is a Column Reference
whose name begins, case-insensitively, with the excluded-dot token is
replaced by a raw expression consisting of the all-uppercase token
EXCLUDED, a dot, and the suffix after the separator, double-quoted when
the quoting flag is on and bare when off; the spellings excluded.foo,
EXCLUDED.foo and Excluded.foo give identical output. -/
theorem claimC1_excluded_rewrite :
    (∀ (q : Bool) (us : List Assignment) (i : Nat) (colName : String) (h1 : i < us.length),
      (us.get ⟨i, h1⟩).Value = AssignValue.column colName →
      strStartsWith (strToLower colName) "excluded." = true →
      ∃ h2 : i < (prepareOnConflictForMerge q us).length,
        (prepareOnConflictForMerge q us).get ⟨i, h2⟩ =
          { Column := (us.get ⟨i, h1⟩).Column,
            Value := AssignValue.expr (if q
              then "EXCLUDED.\"" ++ strDropChars colName ("excluded.").length ++ "\""
              else "EXCLUDED." ++ strDropChars colName ("excluded.").length) }) ∧
    (∀ (q : Bool) (t : String),
      prepareOnConflictForMerge q [{ Column := t, Value := AssignValue.column "excluded.foo" }]
        = prepareOnConflictForMerge q [{ Column := t, Value := AssignValue.column "EXCLUDED.foo" }] ∧
      prepareOnConflictForMerge q [{ Column := t, Value := AssignValue.column "EXCLUDED.foo" }]
        = prepareOnConflictForMerge q [{ Column := t, Value := AssignValue.column "Excluded.foo" }] ∧
      prepareOnConflictForMerge q [{ Column := t, Value := AssignValue.column "excluded.foo" }]
        = [{ Column := t, Value := AssignValue.expr (if q then "EXCLUDED.\"foo\"" else "EXCLUDED.foo") }]) := by
  constructor
  · intro q us i colName h1 hval hsw
    refine ⟨by rw [prepare_length]; exact h1, ?_⟩
    rw [List.get_eq_getElem, List.get_eq_getElem] at *
    simp only [prepare_eq_map, List.getElem_map]
    exact transformAssignment_excluded q (us[i]) colName hval hsw
  · intro q t
    have h1 : strStartsWith (strToLower "excluded.foo") "excluded." = true := by decide
    have h2 : strStartsWith (strToLower "EXCLUDED.foo") "excluded." = true := by decide
    have h3 : strStartsWith (strToLower "Excluded.foo") "excluded." = true := by decide
    have d1 : strDropChars "excluded.foo" ("excluded.").length = "foo" := by decide
    have d2 : strDropChars "EXCLUDED.foo" ("excluded.").length = "foo" := by decide
    have d3 : strDropChars "Excluded.foo" ("excluded.").length = "foo" := by decide
    refine ⟨?_, ?_, ?_⟩ <;>
      simp [prepare_eq_map, transformAssignment, h1, h2, h3, d1, d2, d3, excludedExpr]

/-- Witness for claim C1 at the spec's manual-rewrite example. -/
theorem claimC1_witness :
    ∃ h2 : 0 < (prepareOnConflictForMerge true
        [{ Column := "t", Value := AssignValue.column "excluded.ACCESS_TOKEN" }]).length,
      (prepareOnConflictForMerge true
          [{ Column := "t", Value := AssignValue.column "excluded.ACCESS_TOKEN" }]).get ⟨0, h2⟩ =
        { Column := "t",
          Value := AssignValue.expr (if true
            then "EXCLUDED.\"" ++ strDropChars "excluded.ACCESS_TOKEN" ("excluded.").length ++ "\""
            else "EXCLUDED." ++ strDropChars "excluded.ACCESS_TOKEN" ("excluded.").length) } :=
  claimC1_excluded_rewrite.1 true
    [{ Column := "t", Value := AssignValue.column "excluded.ACCESS_TOKEN" }]
    0 "excluded.ACCESS_TOKEN" (by decide) (by decide) (by decide)

/-- Counterexample to claim C2 as stated: a Column Reference to the
ordinary column age does not pass through the rewrite unchanged. -/
theorem claimC2_counterexample :
    prepareOnConflictForMerge true [{ Column := "age", Value := AssignValue.column "age" }]
      ≠ [{ Column := "age", Value := AssignValue.column "age" }] := by
  decide

/-- Claim C2 as amended: literal bound values and raw SQL expressions
pass through the rewrite unchanged, but a Column Reference to an
ordinary column (name without the excluded-dot lead) is rewritten to
the EXCLUDED-qualified raw expression over its full name, quoted per
the flag. -/
theorem claimC2_amended :
    ∀ (q : Bool) (us : List Assignment) (i : Nat) (h1 : i < us.length),
      (∀ s, (us.get ⟨i, h1⟩).Value = AssignValue.expr s →
        ∃ h2 : i < (prepareOnConflictForMerge q us).length,
          (prepareOnConflictForMerge q us).get ⟨i, h2⟩ = us.get ⟨i, h1⟩) ∧
      (∀ v, (us.get ⟨i, h1⟩).Value = AssignValue.value v →
        ∃ h2 : i < (prepareOnConflictForMerge q us).length,
          (prepareOnConflictForMerge q us).get ⟨i, h2⟩ = us.get ⟨i, h1⟩) ∧
      (∀ n, (us.get ⟨i, h1⟩).Value = AssignValue.column n →
        strStartsWith (strToLower n) "excluded." = false →
        ∃ h2 : i < (prepareOnConflictForMerge q us).length,
          (prepareOnConflictForMerge q us).get ⟨i, h2⟩ =
            { Column := (us.get ⟨i, h1⟩).Column,
              Value := AssignValue.expr (if q
                then "EXCLUDED.\"" ++ n ++ "\"" else "EXCLUDED." ++ n) }) := by
  intro q us i h1
  refine ⟨fun s hval => ⟨by rw [prepare_length]; exact h1, ?_⟩,
    fun v hval => ⟨by rw [prepare_length]; exact h1, ?_⟩,
    fun n hval hsw => ⟨by rw [prepare_length]; exact h1, ?_⟩⟩
  · rw [List.get_eq_getElem, List.get_eq_getElem] at *
    simp only [prepare_eq_map, List.getElem_map]
    rcases hA : us[i] with ⟨ac, av⟩
    rw [hA] at hval
    simp only [] at hval
    subst hval
    simp [transformAssignment]
  · rw [List.get_eq_getElem, List.get_eq_getElem] at *
    simp only [prepare_eq_map, List.getElem_map]
    rcases hA : us[i] with ⟨ac, av⟩
    rw [hA] at hval
    simp only [] at hval
    subst hval
    simp [transformAssignment]
  · rw [List.get_eq_getElem, List.get_eq_getElem] at *
    simp only [prepare_eq_map, List.getElem_map]
    rcases hA : us[i] with ⟨ac, av⟩
    rw [hA] at hval
    simp only [] at hval
    subst hval
    simp [transformAssignment, hsw, excludedExpr]

/-- Witness for claim C2's amended statement: a raw expression passes
unchanged and the ordinary column age becomes EXCLUDED-qualified. -/
theorem claimC2_witness :
    (∃ h2 : 0 < (prepareOnConflictForMerge true
        [{ Column := "age", Value := AssignValue.expr "age+1" }]).length,
      (prepareOnConflictForMerge true
          [{ Column := "age", Value := AssignValue.expr "age+1" }]).get ⟨0, h2⟩ =
        { Column := "age", Value := AssignValue.expr "age+1" }) ∧
    (∃ h2 : 0 < (prepareOnConflictForMerge true
        [{ Column := "age", Value := AssignValue.column "age" }]).length,
      (prepareOnConflictForMerge true
          [{ Column := "age", Value := AssignValue.column "age" }]).get ⟨0, h2⟩ =
        { Column := "age",
          Value := AssignValue.expr (if true
            then "EXCLUDED.\"" ++ "age" ++ "\"" else "EXCLUDED." ++ "age") }) := by
  constructor
  · exact (claimC2_amended true [{ Column := "age", Value := AssignValue.expr "age+1" }]
      0 (by decide)).1 "age+1" (by decide)
  · exact (claimC2_amended true [{ Column := "age", Value := AssignValue.column "age" }]
      0 (by decide)).2.2 "age" (by decide) (by decide)

/-- Element at the junction of an append. -/
theorem getElem_append_cons {α : Type} (pre : List α) (o : α) (os : List α)
    (h : pre.length < (pre ++ o :: os).length) :
    (pre ++ o :: os)[pre.length] = o :=
  List.getElem_of_append rfl rfl

/-- Inner loop at an exhausted index returns the state unchanged. -/
theorem innerLoop_done (l : List RObj) (i : Nat) (row : Except Nat (List Int))
    (errs : List Nat) (h : ¬i < l.length) :
    innerLoop l i row errs = (l, i, errs) := by
  rw [innerLoop, dif_neg h]

/-- Inner loop skips an object with a non-zero default field by moving
the index, consuming nothing. -/
theorem innerLoop_skip (pre : List RObj) (o : RObj) (os : List RObj)
    (row : Except Nat (List Int)) (errs : List Nat)
    (ho : hasNonZeroDefaults o = true) :
    innerLoop (pre ++ o :: os) pre.length row errs
      = innerLoop (pre ++ o :: os) (pre.length + 1) row errs := by
  rw [innerLoop, dif_pos (by simp)]
  rw [getElem_append_cons pre o os (by simp)]
  simp [ho]

/-- Inner loop scans a successfully decoded row into the first all-zero
object and advances. -/
theorem innerLoop_scan_ok (pre : List RObj) (o : RObj) (os : List RObj)
    (v : List Int) (errs : List Nat) (ho : hasNonZeroDefaults o = false) :
    innerLoop (pre ++ o :: os) pre.length (Except.ok v) errs
      = (pre ++ scanObj o v :: os, pre.length + 1, errs) := by
  rw [innerLoop, dif_pos (by simp)]
  rw [getElem_append_cons pre o os (by simp)]
  simp [ho]

/-- Inner loop records a scan error, leaves the object unchanged, and
advances. -/
theorem innerLoop_scan_err (pre : List RObj) (o : RObj) (os : List RObj)
    (e : Nat) (errs : List Nat) (ho : hasNonZeroDefaults o = false) :
    innerLoop (pre ++ o :: os) pre.length (Except.error e) errs
      = (pre ++ o :: os, pre.length + 1, errs ++ [e]) := by
  rw [innerLoop, dif_pos (by simp)]
  rw [getElem_append_cons pre o os (by simp)]
  simp [ho]

/-- Outer loop at an exhausted index returns the state unchanged. -/
theorem outerLoop_done (l : List RObj) (i : Nat) (rows : List (Except Nat (List Int)))
    (errs : List Nat) (h : ¬i < l.length) :
    outerLoop l i rows errs = (l, errs) := by
  cases rows with
  | nil => rfl
  | cons r rs => simp [outerLoop, h]

/-- The indexed recovery loop over a processed head plus a remaining
tail refines the structural correlation recursion on the tail. -/
theorem outerLoop_shift (rows : List (Except Nat (List Int))) :
    ∀ (objs pre : List RObj) (errs : List Nat),
      outerLoop (pre ++ objs) pre.length rows errs
        = (pre ++ (recoverE objs rows errs).1, (recoverE objs rows errs).2) := by
  induction rows with
  | nil =>
    intro objs pre errs
    simp [outerLoop, recoverE]
  | cons row rest ihr =>
    intro objs
    induction objs with
    | nil =>
      intro pre errs
      simp [outerLoop, recoverE]
    | cons o os iho =>
      intro pre errs
      have hlt : pre.length < (pre ++ o :: os).length := by simp
      cases ho : hasNonZeroDefaults o with
      | true =>
        have hgoal : outerLoop (pre ++ o :: os) pre.length (row :: rest) errs
            = outerLoop ((pre ++ [o]) ++ os) ((pre ++ [o]).length) (row :: rest) errs := by
          cases os with
          | nil =>
            simp only [outerLoop]
            rw [if_pos hlt, innerLoop_skip pre o [] row errs ho,
              innerLoop_done (pre ++ [o]) (pre.length + 1) row errs (by simp)]
            rw [outerLoop_done (pre ++ [o]) (pre.length + 1) rest errs (by simp)]
            rw [if_neg (by simp)]
            simp
          | cons o2 os2 =>
            simp only [outerLoop]
            rw [if_pos hlt, if_pos (by simp)]
            rw [innerLoop_skip pre o (o2 :: os2) row errs ho]
            rw [show pre ++ o :: o2 :: os2 = (pre ++ [o]) ++ o2 :: os2 by simp]
            rw [show pre.length + 1 = (pre ++ [o]).length by simp]
        rw [hgoal, iho (pre ++ [o]) errs]
        have hrec : recoverE (o :: os) (row :: rest) errs
            = (o :: (recoverE os (row :: rest) errs).1, (recoverE os (row :: rest) errs).2) := by
          rw [recoverE.eq_def]
          simp [ho]
        rw [hrec]
        simp
      | false =>
        cases row with
        | ok v =>
          simp only [outerLoop]
          rw [if_pos hlt, innerLoop_scan_ok pre o os v errs ho]
          simp only []
          rw [show pre ++ scanObj o v :: os = (pre ++ [scanObj o v]) ++ os by simp]
          rw [show pre.length + 1 = (pre ++ [scanObj o v]).length by simp]
          rw [ihr os (pre ++ [scanObj o v]) errs]
          have hrec : recoverE (o :: os) (Except.ok v :: rest) errs
              = (scanObj o v :: (recoverE os rest errs).1, (recoverE os rest errs).2) := by
            rw [recoverE.eq_def]
            simp [ho]
          rw [hrec]
          simp
        | error e =>
          simp only [outerLoop]
          rw [if_pos hlt, innerLoop_scan_err pre o os e errs ho]
          simp only []
          rw [show pre ++ o :: os = (pre ++ [o]) ++ os by simp]
          rw [show pre.length + 1 = (pre ++ [o]).length by simp]
          rw [ihr os (pre ++ [o]) (errs ++ [e])]
          have hrec : recoverE (o :: os) (Except.error e :: rest) errs
              = (o :: (recoverE os rest (errs ++ [e])).1, (recoverE os rest (errs ++ [e])).2) := by
            rw [recoverE.eq_def]
            simp [ho]
          rw [hrec]
          simp

/-- On all-ok rows the error-aware correlation recursion is the pure
specification heuristic with no errors recorded. -/
theorem recoverE_ok (rows : List (List Int)) :
    ∀ (objs : List RObj) (errs : List Nat),
      recoverE objs (rows.map Except.ok) errs = (recoverSpec objs rows, errs) := by
  induction rows with
  | nil =>
    intro objs errs
    simp [recoverE, recoverSpec]
  | cons row rest ihr =>
    intro objs
    induction objs with
    | nil =>
      intro errs
      simp [recoverE, recoverSpec]
    | cons o os iho =>
      intro errs
      have iho2 := iho errs
      rw [List.map_cons] at iho2
      cases ho : hasNonZeroDefaults o with
      | true =>
        rw [List.map_cons, recoverE.eq_def]
        simp [recoverSpec, ho, iho2]
      | false =>
        rw [List.map_cons, recoverE.eq_def]
        simp [recoverSpec, ho, ihr os errs]

/-- Claim C8: the default-value recovery loop of Create, run on all-ok
returned rows, computes exactly the specification's correlation
heuristic: rows consumed in order, objects with non-zero default fields
skipped without consuming a row, each row scanned into the first
subsequent all-zero object, stopping when objects or rows are
exhausted. -/
theorem claimC8_recovery_refines_spec (objs : List RObj) (rows : List (List Int)) :
    outerLoop objs 0 (rows.map Except.ok) [] = (recoverSpec objs rows, []) := by
  have h := outerLoop_shift (rows.map Except.ok) objs [] []
  simp only [List.nil_append, List.length_nil] at h
  rw [h, recoverE_ok rows objs []]

/-- Claim C9: a change-tracking query execution error is recorded and
recovery stops with no row scanned and no object touched; a scan error
on an individual returned row is recorded, leaves that object
unchanged, and the loop continues with the remaining rows and
objects. -/
theorem claimC9_recovery_errors :
    (∀ (objs : List RObj) (e : Nat),
      populateDefaultValues objs (Except.error e) = (objs, [e])) ∧
    (∀ (o : RObj) (os : List RObj) (e : Nat) (rest : List (Except Nat (List Int)))
        (errs : List Nat), hasNonZeroDefaults o = false →
      outerLoop (o :: os) 0 (Except.error e :: rest) errs
        = (o :: (outerLoop os 0 rest (errs ++ [e])).1, (outerLoop os 0 rest (errs ++ [e])).2)) := by
  constructor
  · intro objs e
    rfl
  · intro o os e rest errs ho
    have h1 := outerLoop_shift (Except.error e :: rest) (o :: os) [] errs
    have h2 := outerLoop_shift rest os [] (errs ++ [e])
    simp only [List.nil_append, List.length_nil] at h1 h2
    rw [h1, h2]
    have hrec : recoverE (o :: os) (Except.error e :: rest) errs
        = (o :: (recoverE os rest (errs ++ [e])).1, (recoverE os rest (errs ++ [e])).2) := by
      rw [recoverE.eq_def]
      simp [ho]
    rw [hrec]

/-- Witness for claim C9: the query-error case at a one-object input,
and the scan-error case at a one-object one-row input. -/
theorem claimC9_witness :
    populateDefaultValues [{ defaults := [0] }] (Except.error 7) = ([{ defaults := [0] }], [7]) ∧
    outerLoop [{ defaults := [0] }] 0 [Except.error 7] [] = ([{ defaults := [0] }], [7]) := by
  constructor
  · exact claimC9_recovery_errors.1 [{ defaults := [0] }] 7
  · have h := claimC9_recovery_errors.2 { defaults := [0] } [] 7 [] [] (by decide)
    rw [h]
    rfl

/-- Claim C10: the insert-strategy selector returns the configured
UseUnionSelect exactly for this package's dialector with non-nil Config
and true otherwise; Open always yields union mode, New with an unset
UseOnionSelect field yields plain-VALUES mode. -/
theorem claimC10_union_selector :
    (∀ c : Config, shouldUseUnionSelect (DialectorRef.snowflake (some c)) = c.UseUnionSelect) ∧
    shouldUseUnionSelect (DialectorRef.snowflake none) = true ∧
    shouldUseUnionSelect DialectorRef.foreign = true ∧
    (∀ dsn : String, insertModeFor (Open dsn) = InsertMode.unionSelect) ∧
    (∀ c : Config, c.UseUnionSelect = false → insertModeFor (New c) = InsertMode.plainValues) := by
  refine ⟨fun c => rfl, rfl, rfl, fun dsn => rfl, fun c h => ?_⟩
  simp [insertModeFor, New, shouldUseUnionSelect, h]

/-- Witness for claim C10 at the zero-valued Config. -/
theorem claimC10_witness :
    zeroConfig.UseUnionSelect = false ∧ insertModeFor (New zeroConfig) = InsertMode.plainValues :=
  ⟨rfl, claimC10_union_selector.2.2.2.2 zeroConfig rfl⟩

/-- Claim C3: with an ON CONFLICT clause present, Create invokes the
MERGE synthesizer if and only if the schema has at least one primary
field and every primary field's database name occurs among the Row-Set
columns; otherwise the plain insert path is taken. -/
theorem claimC3_merge_gate : ∀ (sch : Schema) (vc : ValuesClause),
    createPath sch vc true = CreatePath.merge ↔
      (sch.PrimaryFields ≠ [] ∧ ∀ f ∈ sch.PrimaryFields, f.DBName ∈ vc.Columns) := by
  intro sch vc
  unfold createPath conflictGate
  rcases hP : sch.PrimaryFields with _ | ⟨f, fs⟩
  · simp [hP]
  · by_cases hall : (f :: fs).all (fun g => vc.Columns.contains g.DBName) = true
    · simp [hall]
    · have hfalse : (f :: fs).all (fun g => vc.Columns.contains g.DBName) = false := by
        simpa using hall
      simp [hfalse]

end GormSnowflake
